import Mathlib

/-!
Shallow embedding of the sprite-animation engine in
src/late-registration/funkin.js (the primary implementation: the first copy
in that file, which is the one every claim cites and the only one with
layers and effects).  JS numbers are modelled as rationals; a JS number
that may be NaN is modelled as an Option over the rationals with none
standing for NaN.  JS objects used as string-keyed maps (the frames table,
the parser accumulator) are modelled as association lists in insertion
order, which is JS enumeration order for the non-integer-like keys this
program produces.
-/

namespace Funkin

/-- A JS number that may be NaN: none models NaN. -/
abbrev JsNum := Option ℚ

/-- A frame rectangle as stored by parseSparrow (funkin.js lines 132-140
after the index field is deleted at lines 146-149): source rectangle in the
atlas plus the draw-time offset pair.  x, y, w, h come from unary plus on
attribute strings and can be NaN; ox, oy go through the JS or-with-zero
idiom and are always actual numbers. -/
structure FrameRect where
  x : JsNum
  y : JsNum
  w : JsNum
  h : JsNum
  ox : ℚ
  oy : ℚ
deriving DecidableEq

/-- The clip table: clip name to ordered frame list, in insertion order
(a JS object in the source). -/
abbrev ClipTable := List (String × List FrameRect)

/-- The Sprite class state (funkin.js lines 49-65): the image is external
and irrelevant to the claims, every other field is kept.  anim can be
undefined (constructor on an empty table), frameIndex can be NaN
(JS modulo by zero), both modelled with Option. -/
structure Sprite where
  frames : ClipTable
  anchorX : ℚ
  anchorY : ℚ
  scale : ℚ
  opacity : ℚ
  fps : ℚ
  anim : Option String
  frameIndex : Option ℕ
  frameTimer : ℚ
deriving DecidableEq

/-- The Sprite constructor (funkin.js lines 50-65): anchor fixed at
construction, opacity 1, fps 12, anim is "idle" when the table has that key
(a frames array is always truthy) and otherwise the first key, frameIndex 0,
frameTimer 0. -/
def mkSprite (frames : ClipTable) (x y scale : ℚ) : Sprite :=
  { frames := frames
    anchorX := x
    anchorY := y
    scale := scale
    opacity := 1
    fps := 12
    anim := if (frames.lookup "idle").isSome then some "idle"
            else frames.head?.map (fun p => p.1)
    frameIndex := some 0
    frameTimer := 0 }

/-- Sprite.setAnim (funkin.js lines 67-73): switch and reset only when the
named clip exists in the table and differs from the current one. -/
def Sprite.setAnim (name : String) (s : Sprite) : Sprite :=
  if (s.frames.lookup name).isSome = true ∧ s.anim ≠ some name then
    { s with anim := some name, frameIndex := some 0, frameTimer := 0 }
  else s

/-- this.frames[this.anim]: undefined when anim is undefined or the key is
absent. -/
def Sprite.clipFrames (s : Sprite) : Option (List FrameRect) :=
  s.anim.bind (fun a => s.frames.lookup a)

/-- JS (i + 1) % n on the frameIndex: NaN stays NaN, and modulo by zero
(an empty frames array) produces NaN. -/
def jsIncMod : Option ℕ → ℕ → Option ℕ
  | none, _ => none
  | some _, 0 => none
  | some i, n + 1 => some ((i + 1) % (n + 1))

/-- Sprite.update (funkin.js lines 75-84): return unless the current clip
is present (an empty array is still truthy), accumulate the timer, and on
reaching one frame period reset the timer to zero and advance one frame. -/
def Sprite.update (dt : ℚ) (s : Sprite) : Sprite :=
  match s.clipFrames with
  | none => s
  | some animFrames =>
    if 1 / s.fps ≤ s.frameTimer + dt then
      { s with frameTimer := 0
               frameIndex := jsIncMod s.frameIndex animFrames.length }
    else
      { s with frameTimer := s.frameTimer + dt }

/-- this.frames[this.anim]?.[this.frameIndex]: undefined when the clip is
missing, the index is NaN, or the index is out of range. -/
def Sprite.frameAt (s : Sprite) : Option FrameRect :=
  s.clipFrames.bind (fun fs => s.frameIndex.bind (fun i => fs[i]?))

/-- One ctx.drawImage call together with the globalAlpha in force for it
(funkin.js lines 99-111). -/
structure DrawCmd where
  srcX : JsNum
  srcY : JsNum
  srcW : JsNum
  srcH : JsNum
  dx : ℚ
  dy : ℚ
  dw : JsNum
  dh : JsNum
  alpha : ℚ
deriving DecidableEq

/-- Sprite.draw (funkin.js lines 86-112), with the global viewport scale
passed explicitly: skip when no current frame is available, otherwise one
blit at anchor times viewport scale plus offset times sprite scale times
viewport scale, sized frame size times sprite scale times viewport scale. -/
def Sprite.draw (sx sy : ℚ) (s : Sprite) : Option DrawCmd :=
  match s.frameAt with
  | none => none
  | some f => some
    { srcX := f.x
      srcY := f.y
      srcW := f.w
      srcH := f.h
      dx := s.anchorX * sx + f.ox * s.scale * sx
      dy := s.anchorY * sy + f.oy * s.scale * sy
      dw := f.w.map (fun w => w * s.scale * sx)
      dh := f.h.map (fun h => h * s.scale * sy)
      alpha := s.opacity }

/-- One SubTexture element of a Sparrow atlas descriptor, as seen by the
parser through getAttribute: the outer Option is attribute presence
(none = getAttribute returned null), and for the numeric attributes the
inner JsNum is the unary-plus value of the attribute string (none = the
string is not numeric, so unary plus gives NaN). -/
structure SubTexture where
  name : Option String
  x : Option JsNum
  y : Option JsNum
  width : Option JsNum
  height : Option JsNum
  frameX : Option JsNum
  frameY : Option JsNum
deriving DecidableEq

/-- JS unary plus applied to a getAttribute result: an absent attribute is
null and plus-null is 0; a present attribute keeps its numeric value, NaN
when the string is not numeric. -/
def plusAttr : Option JsNum → JsNum
  | none => some 0
  | some v => v

/-- The JS or-with-zero idiom on a possibly-NaN number: NaN (and 0, which
is falsy and replaced by the same 0) becomes 0. -/
def orZero : JsNum → ℚ
  | none => 0
  | some q => q

/-- Value of a run of decimal digits, as JS Number gives it. -/
def digitsToNat (ds : List Char) : ℕ :=
  ds.foldl (fun n c => 10 * n + (c.toNat - 48)) 0

/-- The regex match at funkin.js line 124: a lazy head group then a digit
group anchored at the end splits off the maximal trailing run of decimal
digits; a name with no trailing digit does not match. -/
def splitName (s : String) : Option (String × ℕ) :=
  let rev := s.data.reverse
  let ds := rev.takeWhile Char.isDigit
  if ds.isEmpty then none
  else some (⟨(rev.dropWhile Char.isDigit).reverse⟩, digitsToNat ds.reverse)

/-- A frame as pushed at funkin.js lines 132-140, before the index field is
deleted. -/
structure IndexedFrame where
  index : ℕ
  x : JsNum
  y : JsNum
  w : JsNum
  h : JsNum
  ox : ℚ
  oy : ℚ
deriving DecidableEq

/-- The object literal pushed at funkin.js lines 132-140: raw attribute
numbers for the rectangle, negated or-zero trim offsets. -/
def mkIndexedFrame (sub : SubTexture) (idx : ℕ) : IndexedFrame :=
  { index := idx
    x := plusAttr sub.x
    y := plusAttr sub.y
    w := plusAttr sub.width
    h := plusAttr sub.height
    ox := -(orZero (plusAttr sub.frameX))
    oy := -(orZero (plusAttr sub.frameY)) }

/-- delete f.index (funkin.js lines 146-149). -/
def IndexedFrame.dropIndex (f : IndexedFrame) : FrameRect :=
  { x := f.x, y := f.y, w := f.w, h := f.h, ox := f.ox, oy := f.oy }

/-- frames[anim].push(...) on the JS object used as a map: append to the
existing key, or add the key at the end in insertion order. -/
def pushFrame (k : String) (f : IndexedFrame) :
    List (String × List IndexedFrame) → List (String × List IndexedFrame)
  | [] => [(k, [f])]
  | (k', fs) :: rest =>
    if k' = k then (k', fs ++ [f]) :: rest
    else (k', fs) :: pushFrame k f rest

/-- The JS exception class thrown by calling a method on null. -/
inductive JsError where
  | typeError
deriving DecidableEq

/-- The grouping loop of parseSparrow (funkin.js lines 122-141): a missing
name attribute makes name.match throw a TypeError; a name with no trailing
digits is skipped; otherwise the frame is pushed under the prefix with the
digit run as its index. -/
def buildTable (acc : List (String × List IndexedFrame)) :
    List SubTexture → Except JsError (List (String × List IndexedFrame))
  | [] => Except.ok acc
  | sub :: rest =>
    match sub.name with
    | none => Except.error JsError.typeError
    | some nm =>
      match splitName nm with
      | none => buildTable acc rest
      | some (anim, idx) => buildTable (pushFrame anim (mkIndexedFrame sub idx) acc) rest

/-- The per-clip numeric sort at funkin.js line 145.  JS Array.sort with
the comparator on index is the stable ascending sort by index, which
insertion sort on the index order realises exactly. -/
def sortByIndex (fs : List IndexedFrame) : List IndexedFrame :=
  List.insertionSort (fun a b => a.index ≤ b.index) fs

/-- parseSparrow up to but not including the index deletion: group, then
sort every clip numerically. -/
def parseSparrowIndexed (subs : List SubTexture) :
    Except JsError (List (String × List IndexedFrame)) :=
  (buildTable [] subs).map (fun t => t.map (fun p => (p.1, sortByIndex p.2)))

/-- parseSparrow (funkin.js lines 118-153): group by clip name, sort each
clip by numeric suffix, delete the index field. -/
def parseSparrow (subs : List SubTexture) : Except JsError ClipTable :=
  (parseSparrowIndexed subs).map
    (fun t => t.map (fun p => (p.1, p.2.map IndexedFrame.dropIndex)))

/-- A scene entity as pushed by loadAndPushObject (funkin.js lines 248-253).
The layer is Option because the loop re-applies the or-zero default; the
sprite is Option because the loop guards it with optional chaining. -/
structure GameObj where
  name : String
  layer : Option ℤ
  sprite : Option Sprite
deriving DecidableEq

/-- a.layer || 0, the effective layer used by the loop comparator. -/
def effLayer (o : GameObj) : ℤ := o.layer.getD 0

/-- The sort at funkin.js lines 202-204: JS Array.sort with the comparator
on effective layers is the stable ascending sort by effective layer, which
insertion sort on that order realises exactly.  The loop at lines 206-210
then updates and draws the entities in exactly this list order. -/
def sortByLayer (objs : List GameObj) : List GameObj :=
  List.insertionSort (fun a b => effLayer a ≤ effLayer b) objs

/-! ### Example values used by counterexamples and witnesses -/

/-- A plain one-by-one frame with zero offsets. -/
def fr0 : FrameRect := ⟨some 0, some 0, some 1, some 1, 0, 0⟩

/-- A sprite on a ten-frame idle clip at frame 0 with a clean timer, the
state the spec uses in its floor-exactness example. -/
def exSprite : Sprite :=
  { frames := [("idle", List.replicate 10 fr0)]
    anchorX := 100
    anchorY := 50
    scale := 2
    opacity := 1
    fps := 12
    anim := some "idle"
    frameIndex := some 0
    frameTimer := 0 }

/-- A trimmed frame with zero offsets. -/
def frA : FrameRect := ⟨some 0, some 0, some 20, some 30, 0, 0⟩

/-- A trimmed frame inset by seven and four pixels, stored negated. -/
def frB : FrameRect := ⟨some 20, some 0, some 13, some 26, -7, -4⟩

/-- A sprite over a two-frame clip whose frames carry different offsets,
for the draw-transform witness. -/
def exSpriteOffsets : Sprite :=
  { frames := [("idle", [frA, frB])]
    anchorX := 100
    anchorY := 50
    scale := 2
    opacity := 1
    fps := 12
    anim := some "idle"
    frameIndex := some 0
    frameTimer := 0 }

/-- A sprite whose current clip is present in the table but has no frames. -/
def emptyClipSprite : Sprite :=
  { frames := [("idle", [])]
    anchorX := 0
    anchorY := 0
    scale := 1
    opacity := 1
    fps := 12
    anim := some "idle"
    frameIndex := some 0
    frameTimer := 0 }

/-! ### C1 -/

/-- C1, counterexample: at fps 12, update(0.25) from frame 0 with a zero
frameTimer on a ten-frame clip advances exactly one frame, not the three
frames the claim computes as floor(0.25 * 12); the code resets the timer
and advances once per call no matter how large dt is. -/
theorem update_quarter_not_three_frames :
    (Sprite.update (1/4) exSprite).frameIndex = some 1 ∧
    (Sprite.update (1/4) exSprite).frameIndex ≠ some 3 := by
  have h1 : exSprite.clipFrames = some (List.replicate 10 fr0) := rfl
  have e1 : Sprite.update (1/4) exSprite =
      { exSprite with frameTimer := 0, frameIndex := some 1 } := by
    simp only [Sprite.update, h1]
    norm_num [exSprite, jsIncMod]
  rw [e1]
  exact ⟨rfl, by simp⟩

/-- C1, amended: for a sprite whose current clip is present with at least
one frame and a normal frame index, update(dt) adds dt to the timer; if the
sum reaches one frame period it advances the frame index by exactly one
modulo the clip length and resets the timer to zero, discarding the excess;
otherwise it keeps the index and stores the sum in the timer. -/
theorem update_single_step (s : Sprite) (dt : ℚ) (fs : List FrameRect) (i : ℕ)
    (_hdt : 0 ≤ dt) (hc : s.clipFrames = some fs) (hi : s.frameIndex = some i)
    (hn : fs ≠ []) :
    Sprite.update dt s =
      if 1 / s.fps ≤ s.frameTimer + dt then
        { s with frameTimer := 0, frameIndex := some ((i + 1) % fs.length) }
      else
        { s with frameTimer := s.frameTimer + dt } := by
  cases fs with
  | nil => exact absurd rfl hn
  | cons f rest =>
    simp only [Sprite.update, hc, hi, jsIncMod, List.length_cons]

/-- C1 witness: the amended step law evaluated on the fps-12 example with
dt a quarter second, which advances one frame. -/
theorem update_single_step_witness :
    (0:ℚ) ≤ 1/4 ∧
    Sprite.update (1/4) exSprite =
      if 1 / exSprite.fps ≤ exSprite.frameTimer + 1/4 then
        { exSprite with frameTimer := 0
                        frameIndex := some ((0 + 1) % (List.replicate 10 fr0).length) }
      else
        { exSprite with frameTimer := exSprite.frameTimer + 1/4 } :=
  ⟨by norm_num,
   update_single_step exSprite (1/4) (List.replicate 10 fr0) 0 (by norm_num) rfl rfl
     (by simp)⟩

/-! ### C4 -/

/-- C4, counterexample: two successive quarter-period-crossing updates of
one sixth of a second advance two frames, while the single update of one
third of a second advances only one, so update is not time-additive. -/
theorem update_not_additive :
    Sprite.update (1/6) (Sprite.update (1/6) exSprite) ≠
      Sprite.update (1/6 + 1/6) exSprite := by
  have h1 : exSprite.clipFrames = some (List.replicate 10 fr0) := rfl
  have e1 : Sprite.update (1/6) exSprite =
      { exSprite with frameTimer := 0, frameIndex := some 1 } := by
    simp only [Sprite.update, h1]
    norm_num [exSprite, jsIncMod]
  have e2 : Sprite.update (1/6) { exSprite with frameTimer := 0, frameIndex := some 1 } =
      { exSprite with frameTimer := 0, frameIndex := some 2 } := by
    have h2 : Sprite.clipFrames { exSprite with frameTimer := 0, frameIndex := some 1 } =
        some (List.replicate 10 fr0) := rfl
    simp only [Sprite.update, h2]
    norm_num [exSprite, jsIncMod]
  have e3 : Sprite.update (1/6 + 1/6) exSprite =
      { exSprite with frameTimer := 0, frameIndex := some 1 } := by
    simp only [Sprite.update, h1]
    norm_num [exSprite, jsIncMod]
  rw [e1, e2, e3]
  intro h
  have h4 := congrArg Sprite.frameIndex h
  simp at h4

/-- C4, amended: update is time-additive only below the frame period:
when the accumulated timer plus both increments stays under one frame
period, update(a) then update(b) equals update(a+b); once a frame boundary
is crossed the excess is discarded, so additivity fails in general. -/
theorem update_additive_below_period (s : Sprite) (a b : ℚ)
    (_ha : 0 ≤ a) (hb : 0 ≤ b) (h : s.frameTimer + a + b < 1 / s.fps) :
    Sprite.update b (Sprite.update a s) = Sprite.update (a + b) s := by
  cases hc : s.clipFrames with
  | none => simp [Sprite.update, hc]
  | some fs =>
    have h1 : ¬ (1 / s.fps ≤ s.frameTimer + a) := by intro hw; linarith
    have e1 : Sprite.update a s = { s with frameTimer := s.frameTimer + a } := by
      simp only [Sprite.update, hc]
      rw [if_neg h1]
    have hc2 : Sprite.clipFrames { s with frameTimer := s.frameTimer + a } = some fs := hc
    have h2 : ¬ (1 / s.fps ≤ s.frameTimer + a + b) := by intro hw; linarith
    have h3 : ¬ (1 / s.fps ≤ s.frameTimer + (a + b)) := by intro hw; linarith
    rw [e1]
    simp only [Sprite.update, hc2, hc]
    rw [if_neg h2, if_neg h3]
    simp [add_assoc]

/-- C4 witness: the restricted additivity law evaluated on the example
sprite with two increments of one forty-eighth of a second. -/
theorem update_additive_below_period_witness :
    (0:ℚ) ≤ 1/48 ∧ exSprite.frameTimer + 1/48 + 1/48 < 1 / exSprite.fps ∧
    Sprite.update (1/48) (Sprite.update (1/48) exSprite) =
      Sprite.update (1/48 + 1/48) exSprite :=
  ⟨by norm_num,
   by norm_num [exSprite],
   update_additive_below_period exSprite (1/48) (1/48) (by norm_num) (by norm_num)
     (by norm_num [exSprite])⟩

/-! ### C6 -/

/-- C6, counterexample: when the current clip is present but has no frames,
update does not leave the animation state unchanged: the frames array is
truthy even when empty, so the timer still accumulates dt. -/
theorem update_empty_clip_changes_state :
    Sprite.update (1/24) emptyClipSprite ≠ emptyClipSprite ∧
    (Sprite.update (1/24) emptyClipSprite).frameTimer = 1/24 := by
  have h1 : emptyClipSprite.clipFrames = some [] := rfl
  have e1 : Sprite.update (1/24) emptyClipSprite =
      { emptyClipSprite with frameTimer := 1/24 } := by
    simp only [Sprite.update, h1]
    norm_num [emptyClipSprite]
  rw [e1]
  constructor
  · intro h
    have h2 := congrArg Sprite.frameTimer h
    norm_num [emptyClipSprite] at h2
  · rfl

/-- C6, amended: update with an absent current clip leaves the state
unchanged; with a present clip the timer always accumulates (so an empty
clip still changes the state); for a non-empty clip a frame index in range
stays in range; and draw with no available frame draws nothing. -/
theorem update_draw_defensive (s : Sprite) (dt sx sy : ℚ) :
    (s.clipFrames = none → Sprite.update dt s = s) ∧
    (∀ fs i, s.clipFrames = some fs → s.frameIndex = some i → i < fs.length →
      ∃ j, (Sprite.update dt s).frameIndex = some j ∧ j < fs.length) ∧
    (s.frameAt = none → Sprite.draw sx sy s = none) := by
  refine ⟨fun h => by simp [Sprite.update, h],
          fun fs i hc hi hlt => ?_,
          fun h => by simp [Sprite.draw, h]⟩
  cases fs with
  | nil => exact absurd hlt (by simp)
  | cons f rest =>
    by_cases hle : 1 / s.fps ≤ s.frameTimer + dt
    · refine ⟨(i + 1) % (rest.length + 1), ?_, ?_⟩
      · simp only [Sprite.update, hc, hi, jsIncMod, List.length_cons]
        rw [if_pos hle]
      · simpa using Nat.mod_lt _ (Nat.succ_pos _)
    · refine ⟨i, ?_, by simpa using hlt⟩
      simp only [Sprite.update, hc]
      rw [if_neg hle]
      exact hi

/-- C6 witness: the defensive laws evaluated on a sprite whose current clip
name is absent from the table, and on the ten-frame example sprite. -/
theorem update_draw_defensive_witness :
    Sprite.clipFrames { exSprite with anim := some "missing" } = none ∧
    Sprite.update 5 { exSprite with anim := some "missing" } =
      { exSprite with anim := some "missing" } ∧
    exSprite.clipFrames = some (List.replicate 10 fr0) ∧
    (∃ j, (Sprite.update 5 exSprite).frameIndex = some j ∧
      j < (List.replicate 10 fr0).length) :=
  ⟨rfl,
   (update_draw_defensive { exSprite with anim := some "missing" } 5 1 1).1 rfl,
   rfl,
   (update_draw_defensive exSprite 5 1 1).2.1 (List.replicate 10 fr0) 0 rfl rfl
     (by simp)⟩

/-! ### C7 -/

/-- C7: setAnim is a no-op when the requested clip is absent from the table
or already current, and otherwise switches the clip and resets the frame
index and timer to zero. -/
theorem setAnim_spec (s : Sprite) (name : String) :
    ((s.frames.lookup name = none ∨ s.anim = some name) → Sprite.setAnim name s = s) ∧
    (∀ fs, s.frames.lookup name = some fs → s.anim ≠ some name →
      Sprite.setAnim name s =
        { s with anim := some name, frameIndex := some 0, frameTimer := 0 }) := by
  constructor
  · intro h
    unfold Sprite.setAnim
    rw [if_neg]
    rintro ⟨h1, h2⟩
    cases h with
    | inl hn => rw [hn] at h1; simp at h1
    | inr ha => exact h2 ha
  · intro fs hfs hne
    unfold Sprite.setAnim
    rw [if_pos ⟨by rw [hfs]; rfl, hne⟩]

/-- C7 witness: probing a missing clip leaves the example sprite unchanged,
and switching to a present different clip resets the frame position. -/
theorem setAnim_spec_witness :
    Sprite.setAnim "missing" exSprite = exSprite ∧
    Sprite.setAnim "idle" { exSprite with anim := some "walk" } =
      { { exSprite with anim := some "walk" } with
          anim := some "idle", frameIndex := some 0, frameTimer := 0 } :=
  ⟨(setAnim_spec exSprite "missing").1 (Or.inl rfl),
   (setAnim_spec { exSprite with anim := some "walk" } "idle").2
     (List.replicate 10 fr0) rfl (by simp)⟩

/-! ### C10 -/

/-- C10: a freshly constructed sprite starts on the clip named idle when
the table has one, otherwise on the first clip in table insertion order,
with frame index and timer both zero. -/
theorem mkSprite_initial_state (frames : ClipTable) (x y sc : ℚ) :
    ((frames.lookup "idle").isSome = true → (mkSprite frames x y sc).anim = some "idle") ∧
    (∀ p rest, frames.lookup "idle" = none → frames = p :: rest →
      (mkSprite frames x y sc).anim = some p.1) ∧
    (mkSprite frames x y sc).frameIndex = some 0 ∧
    (mkSprite frames x y sc).frameTimer = 0 := by
  refine ⟨fun h => ?_, fun p rest hn hf => ?_, rfl, rfl⟩
  · simp [mkSprite, h]
  · subst hf
    simp [mkSprite, hn]

/-- C10 witness: the constructor evaluated on a table that has an idle clip
in second position, and on one that does not. -/
theorem mkSprite_initial_state_witness :
    (mkSprite [("walk", [fr0]), ("idle", [fr0])] 3 4 1).anim = some "idle" ∧
    (mkSprite [("walk", [fr0]), ("run", [fr0])] 3 4 1).anim = some "walk" ∧
    (mkSprite [("walk", [fr0]), ("run", [fr0])] 3 4 1).frameIndex = some 0 ∧
    (mkSprite [("walk", [fr0]), ("run", [fr0])] 3 4 1).frameTimer = 0 :=
  ⟨(mkSprite_initial_state [("walk", [fr0]), ("idle", [fr0])] 3 4 1).1 rfl,
   (mkSprite_initial_state [("walk", [fr0]), ("run", [fr0])] 3 4 1).2.1
     ("walk", [fr0]) [("run", [fr0])] rfl rfl,
   (mkSprite_initial_state [("walk", [fr0]), ("run", [fr0])] 3 4 1).2.2.1,
   (mkSprite_initial_state [("walk", [fr0]), ("run", [fr0])] 3 4 1).2.2.2⟩

/-! ### C3 -/

/-- C3: a draw with an available frame blits at anchor times viewport scale
plus offset times sprite scale times viewport scale, sized frame size times
sprite scale times viewport scale; and between two frames of the same clip
the difference of draw positions depends only on the offsets, never on the
anchor, which is fixed at construction and never recomputed. -/
theorem draw_anchor_offset_transform (s : Sprite) (sx sy : ℚ) (i j : Option ℕ)
    (f g : FrameRect)
    (hf : Sprite.frameAt { s with frameIndex := i } = some f)
    (hg : Sprite.frameAt { s with frameIndex := j } = some g) :
    ∃ cf cg,
      Sprite.draw sx sy { s with frameIndex := i } = some cf ∧
      Sprite.draw sx sy { s with frameIndex := j } = some cg ∧
      cf.dx = s.anchorX * sx + f.ox * s.scale * sx ∧
      cf.dy = s.anchorY * sy + f.oy * s.scale * sy ∧
      cf.dw = f.w.map (fun w => w * s.scale * sx) ∧
      cf.dh = f.h.map (fun h => h * s.scale * sy) ∧
      cf.dx - cg.dx = (f.ox - g.ox) * (s.scale * sx) ∧
      cf.dy - cg.dy = (f.oy - g.oy) * (s.scale * sy) := by
  refine ⟨
    { srcX := f.x, srcY := f.y, srcW := f.w, srcH := f.h,
      dx := s.anchorX * sx + f.ox * s.scale * sx,
      dy := s.anchorY * sy + f.oy * s.scale * sy,
      dw := f.w.map (fun w => w * s.scale * sx),
      dh := f.h.map (fun h => h * s.scale * sy),
      alpha := s.opacity },
    { srcX := g.x, srcY := g.y, srcW := g.w, srcH := g.h,
      dx := s.anchorX * sx + g.ox * s.scale * sx,
      dy := s.anchorY * sy + g.oy * s.scale * sy,
      dw := g.w.map (fun w => w * s.scale * sx),
      dh := g.h.map (fun h => h * s.scale * sy),
      alpha := s.opacity },
    ?_, ?_, rfl, rfl, rfl, rfl, by ring, by ring⟩
  · simp only [Sprite.draw, hf]
  · simp only [Sprite.draw, hg]

/-- C3 witness: the transform law evaluated on the example sprite drawing
frames with offsets zero and minus seven at frame indices zero and one. -/
theorem draw_anchor_offset_transform_witness :
    Sprite.frameAt { exSpriteOffsets with frameIndex := some 0 } = some frA ∧
    Sprite.frameAt { exSpriteOffsets with frameIndex := some 1 } = some frB ∧
    (∃ cf cg,
      Sprite.draw 2 3 { exSpriteOffsets with frameIndex := some 0 } = some cf ∧
      Sprite.draw 2 3 { exSpriteOffsets with frameIndex := some 1 } = some cg ∧
      cf.dx = exSpriteOffsets.anchorX * 2 + frA.ox * exSpriteOffsets.scale * 2 ∧
      cf.dy = exSpriteOffsets.anchorY * 3 + frA.oy * exSpriteOffsets.scale * 3 ∧
      cf.dw = frA.w.map (fun w => w * exSpriteOffsets.scale * 2) ∧
      cf.dh = frA.h.map (fun h => h * exSpriteOffsets.scale * 3) ∧
      cf.dx - cg.dx = (frA.ox - frB.ox) * (exSpriteOffsets.scale * 2) ∧
      cf.dy - cg.dy = (frA.oy - frB.oy) * (exSpriteOffsets.scale * 3)) :=
  ⟨rfl, rfl,
   draw_anchor_offset_transform exSpriteOffsets 2 3 (some 0) (some 1) frA frB rfl rfl⟩

/-! ### Parser lemmas -/

/-- Descriptor entry with an absent x attribute but all the rest present,
the required-attribute failure case of C8. -/
def exMissingX : SubTexture :=
  ⟨some "idle0", none, some (some 3), some (some 4), some (some 5), none, none⟩

/-- Descriptor entries with numeric suffixes two, ten and zero, in an order
that is neither numeric nor lexical. -/
def exIdle2 : SubTexture :=
  ⟨some "idle2", some (some 1), some (some 1), some (some 1), some (some 1), none, none⟩

def exIdle10 : SubTexture :=
  ⟨some "idle10", some (some 2), some (some 2), some (some 2), some (some 2), none, none⟩

def exIdle0 : SubTexture :=
  ⟨some "idle0", some (some 3), some (some 3), some (some 3), some (some 3),
   some (some 7), none⟩

theorem mem_pushFrame {k₀ : String} {f₀ : IndexedFrame} :
    ∀ (t : List (String × List IndexedFrame)) (k : String) (fs : List IndexedFrame)
      (g : IndexedFrame), (k, fs) ∈ pushFrame k₀ f₀ t → g ∈ fs →
      (∃ fs₀, (k, fs₀) ∈ t ∧ g ∈ fs₀) ∨ (k = k₀ ∧ g = f₀) := by
  intro t
  induction t with
  | nil =>
    intro k fs g hm hg
    simp only [pushFrame, List.mem_singleton, Prod.mk.injEq] at hm
    obtain ⟨hk, hfs⟩ := hm
    subst hk hfs
    simp only [List.mem_singleton] at hg
    exact Or.inr ⟨rfl, hg⟩
  | cons p rest ih =>
    intro k fs g hm hg
    obtain ⟨k', fs'⟩ := p
    by_cases hk : k' = k₀
    · subst hk
      simp only [pushFrame, if_pos rfl] at hm
      rcases List.mem_cons.mp hm with h | h
      · obtain ⟨hk, hfs⟩ := Prod.mk.injEq .. ▸ h
        subst hk hfs
        rcases List.mem_append.mp hg with h' | h'
        · exact Or.inl ⟨fs', List.mem_cons_self .., h'⟩
        · simp only [List.mem_singleton] at h'
          exact Or.inr ⟨rfl, h'⟩
      · exact Or.inl ⟨fs, List.mem_cons_of_mem _ h, hg⟩
    · simp only [pushFrame, if_neg hk] at hm
      rcases List.mem_cons.mp hm with h | h
      · exact Or.inl ⟨fs, h ▸ List.mem_cons_self .., hg⟩
      · rcases ih k fs g h hg with ⟨fs₀, hm₀, hg₀⟩ | hr
        · exact Or.inl ⟨fs₀, List.mem_cons_of_mem _ hm₀, hg₀⟩
        · exact Or.inr hr

theorem pushFrame_forall_ne_nil {k₀ : String} {f₀ : IndexedFrame} :
    ∀ (t : List (String × List IndexedFrame)),
      (∀ p ∈ t, p.2 ≠ ([] : List IndexedFrame)) →
      ∀ p ∈ pushFrame k₀ f₀ t, p.2 ≠ [] := by
  intro t
  induction t with
  | nil =>
    intro _ p hp
    simp only [pushFrame, List.mem_singleton] at hp
    subst hp
    simp
  | cons q rest ih =>
    intro hall p hp
    obtain ⟨k', fs'⟩ := q
    by_cases hk : k' = k₀
    · subst hk
      simp only [pushFrame, if_pos rfl] at hp
      rcases List.mem_cons.mp hp with h | h
      · subst h; simp
      · exact hall p (List.mem_cons_of_mem _ h)
    · simp only [pushFrame, if_neg hk] at hp
      rcases List.mem_cons.mp hp with h | h
      · exact h ▸ hall _ (List.mem_cons_self ..)
      · exact ih (fun q hq => hall q (List.mem_cons_of_mem _ hq)) p h

theorem buildTable_forall_ne_nil :
    ∀ (subs : List SubTexture) (acc t : List (String × List IndexedFrame)),
      (∀ p ∈ acc, p.2 ≠ ([] : List IndexedFrame)) →
      buildTable acc subs = Except.ok t → ∀ p ∈ t, p.2 ≠ [] := by
  intro subs
  induction subs with
  | nil =>
    intro acc t hacc ht
    simp only [buildTable, Except.ok.injEq] at ht
    exact ht ▸ hacc
  | cons sub rest ih =>
    intro acc t hacc ht
    cases hn : sub.name with
    | none => simp [buildTable, hn] at ht
    | some nm =>
      cases hs : splitName nm with
      | none =>
        simp only [buildTable, hn, hs] at ht
        exact ih acc t hacc ht
      | some pr =>
        obtain ⟨anim, idx⟩ := pr
        simp only [buildTable, hn, hs] at ht
        exact ih _ t (pushFrame_forall_ne_nil acc hacc) ht

theorem buildTable_mem :
    ∀ (subs : List SubTexture) (acc t : List (String × List IndexedFrame))
      (k : String) (fs : List IndexedFrame) (g : IndexedFrame),
      buildTable acc subs = Except.ok t → (k, fs) ∈ t → g ∈ fs →
      (∃ fs₀, (k, fs₀) ∈ acc ∧ g ∈ fs₀) ∨
      ∃ sub ∈ subs, ∃ nm idx, sub.name = some nm ∧
        splitName nm = some (k, idx) ∧ g = mkIndexedFrame sub idx := by
  intro subs
  induction subs with
  | nil =>
    intro acc t k fs g ht hm hg
    simp only [buildTable, Except.ok.injEq] at ht
    exact Or.inl ⟨fs, ht ▸ hm, hg⟩
  | cons sub rest ih =>
    intro acc t k fs g ht hm hg
    cases hn : sub.name with
    | none => simp [buildTable, hn] at ht
    | some nm =>
      cases hs : splitName nm with
      | none =>
        simp only [buildTable, hn, hs] at ht
        rcases ih acc t k fs g ht hm hg with h | ⟨s₀, hs₀, h⟩
        · exact Or.inl h
        · exact Or.inr ⟨s₀, List.mem_cons_of_mem _ hs₀, h⟩
      | some pr =>
        obtain ⟨anim, idx⟩ := pr
        simp only [buildTable, hn, hs] at ht
        rcases ih _ t k fs g ht hm hg with ⟨fs₀, hm₀, hg₀⟩ | ⟨s₀, hs₀, h⟩
        · rcases mem_pushFrame acc k fs₀ g hm₀ hg₀ with h | ⟨hk, hgf⟩
          · exact Or.inl h
          · exact Or.inr ⟨sub, List.mem_cons_self .., nm, idx, hn, hk ▸ hs, hgf⟩
        · exact Or.inr ⟨s₀, List.mem_cons_of_mem _ hs₀, h⟩

theorem buildTable_isOk_iff :
    ∀ (subs : List SubTexture) (acc : List (String × List IndexedFrame)),
      (∃ t, buildTable acc subs = Except.ok t) ↔
        ∀ sub ∈ subs, sub.name.isSome = true := by
  intro subs
  induction subs with
  | nil => intro acc; simp [buildTable]
  | cons sub rest ih =>
    intro acc
    cases hn : sub.name with
    | none =>
      simp only [buildTable, hn, List.mem_cons]
      constructor
      · rintro ⟨t, ht⟩; exact absurd ht (by simp)
      · intro h; exact absurd (h sub (Or.inl rfl)) (by simp [hn])
    | some nm =>
      cases hs : splitName nm with
      | none =>
        simp only [buildTable, hn, hs, List.mem_cons]
        rw [ih acc]
        constructor
        · intro h s hs'
          rcases hs' with h' | h'
          · rw [h']; simp [hn]
          · exact h s h'
        · intro h s hs'
          exact h s (Or.inr hs')
      | some pr =>
        obtain ⟨anim, idx⟩ := pr
        simp only [buildTable, hn, hs, List.mem_cons]
        rw [ih (pushFrame anim (mkIndexedFrame sub idx) acc)]
        constructor
        · intro h s hs'
          rcases hs' with h' | h'
          · rw [h']; simp [hn]
          · exact h s h'
        · intro h s hs'
          exact h s (Or.inr hs')

/-! ### C8 -/

/-- C8, counterexample: the parser does not fail when a required numeric
attribute is missing; with the x attribute absent the entry is still
parsed, its x coerced to zero by unary plus on null, and a full clip table
is returned. -/
theorem parseSparrow_missing_attr_no_error :
    exMissingX.x = none ∧
    parseSparrow [exMissingX] =
      Except.ok [("idle", [⟨some 0, some 3, some 4, some 5, 0, 0⟩])] :=
  ⟨rfl, rfl⟩

/-- C8, amended: the parser never raises a dedicated parse error; it
returns a table exactly when every entry carries a name attribute, a
missing name aborting with a JS type error from calling match on null
(so no partial table is returned), while missing numeric attributes are
coerced to zero and non-numeric ones to NaN without any failure. -/
theorem parseSparrow_ok_iff_names_present (subs : List SubTexture) :
    (∃ t, parseSparrow subs = Except.ok t) ↔
      ∀ sub ∈ subs, sub.name.isSome = true := by
  rw [← buildTable_isOk_iff subs []]
  constructor
  · rintro ⟨t, ht⟩
    simp only [parseSparrow, parseSparrowIndexed] at ht
    cases hb : buildTable [] subs with
    | error e => rw [hb] at ht; exact absurd ht (by simp [Except.map])
    | ok t₀ => exact ⟨t₀, rfl⟩
  · rintro ⟨t₀, ht₀⟩
    exact ⟨(t₀.map (fun p => (p.1, sortByIndex p.2))).map
             (fun p => (p.1, p.2.map IndexedFrame.dropIndex)),
           by simp only [parseSparrow, parseSparrowIndexed, ht₀, Except.map]⟩

/-- C8 witness: the iff evaluated on a one-entry descriptor whose name is
present, yielding a table. -/
theorem parseSparrow_ok_iff_names_present_witness :
    (∀ sub ∈ [exIdle2], sub.name.isSome = true) ∧
    (∃ t, parseSparrow [exIdle2] = Except.ok t) :=
  ⟨by decide, (parseSparrow_ok_iff_names_present [exIdle2]).mpr (by decide)⟩

theorem sorted_sortByIndex (fs : List IndexedFrame) :
    List.Sorted (fun a b : IndexedFrame => a.index ≤ b.index) (sortByIndex fs) := by
  haveI : IsTotal IndexedFrame (fun a b => a.index ≤ b.index) :=
    ⟨fun a b => Nat.le_total _ _⟩
  haveI : IsTrans IndexedFrame (fun a b => a.index ≤ b.index) :=
    ⟨fun _ _ _ h h' => Nat.le_trans h h'⟩
  exact List.sorted_insertionSort _ fs

theorem sortByIndex_perm (fs : List IndexedFrame) : List.Perm (sortByIndex fs) fs :=
  List.perm_insertionSort _ fs

/-! ### C2 -/

/-- C2: in every successfully parsed table, every clip carries at least one
frame, and the frames of each clip are ordered by ascending numeric value
of the trailing digit suffix of their raw entry name (the stored index),
numeric so that suffix two sorts before suffix ten; parseSparrow itself is
the same table with the index fields deleted. -/
theorem parseSparrow_clips_nonempty_sorted (subs : List SubTexture)
    (t : List (String × List IndexedFrame))
    (h : parseSparrowIndexed subs = Except.ok t) :
    (∀ p ∈ t, p.2 ≠ [] ∧
      List.Sorted (fun a b : IndexedFrame => a.index ≤ b.index) p.2) ∧
    parseSparrow subs =
      Except.ok (t.map (fun p => (p.1, p.2.map IndexedFrame.dropIndex))) := by
  constructor
  · intro p hp
    simp only [parseSparrowIndexed] at h
    cases hb : buildTable [] subs with
    | error e => rw [hb] at h; exact absurd h (by simp [Except.map])
    | ok t₀ =>
      rw [hb] at h
      simp only [Except.map, Except.ok.injEq] at h
      subst h
      obtain ⟨q, hq, hpq⟩ := List.mem_map.mp hp
      have hq2 : q.2 ≠ [] :=
        buildTable_forall_ne_nil subs [] t₀ (by simp) hb q hq
      constructor
      · rw [← hpq]
        intro hnil
        exact hq2 (List.Perm.eq_nil ((sortByIndex_perm q.2).symm.trans (hnil ▸ List.Perm.refl _)))
      · rw [← hpq]
        exact sorted_sortByIndex q.2
  · simp only [parseSparrow, h, Except.map]

/-- C2 witness: parsing entries with suffixes two, ten and zero given in
neither numeric nor lexical order yields one non-empty idle clip sorted
zero, two, ten; lexical string order would have put ten before two. -/
theorem parseSparrow_clips_nonempty_sorted_witness :
    parseSparrowIndexed [exIdle2, exIdle10, exIdle0] =
      Except.ok [("idle",
        [mkIndexedFrame exIdle0 0, mkIndexedFrame exIdle2 2, mkIndexedFrame exIdle10 10])] ∧
    (∀ p ∈ [("idle",
        [mkIndexedFrame exIdle0 0, mkIndexedFrame exIdle2 2, mkIndexedFrame exIdle10 10])],
      p.2 ≠ [] ∧ List.Sorted (fun a b : IndexedFrame => a.index ≤ b.index) p.2) ∧
    parseSparrow [exIdle2, exIdle10, exIdle0] =
      Except.ok ([("idle",
        [mkIndexedFrame exIdle0 0, mkIndexedFrame exIdle2 2, mkIndexedFrame exIdle10 10])].map
          (fun p => (p.1, p.2.map IndexedFrame.dropIndex))) :=
  ⟨rfl,
   (parseSparrow_clips_nonempty_sorted [exIdle2, exIdle10, exIdle0] _ rfl).1,
   (parseSparrow_clips_nonempty_sorted [exIdle2, exIdle10, exIdle0] _ rfl).2⟩

/-! ### C5 -/

/-- C5: every frame of every clip of a successfully parsed table comes from
a descriptor entry whose name splits into that clip name and a digit
suffix, and its stored offsets are the negated or-zero coercion of that
entry's frameX and frameY: minus the attribute value when it is numeric,
and zero when the attribute is absent. -/
theorem parseSparrow_offset_negation (subs : List SubTexture) (t : ClipTable)
    (h : parseSparrow subs = Except.ok t) (clip : String) (fs : List FrameRect)
    (f : FrameRect) (hc : (clip, fs) ∈ t) (hf : f ∈ fs) :
    ∃ sub ∈ subs, ∃ nm idx, sub.name = some nm ∧
      splitName nm = some (clip, idx) ∧
      f.ox = -(orZero (plusAttr sub.frameX)) ∧
      f.oy = -(orZero (plusAttr sub.frameY)) ∧
      (sub.frameX = none → f.ox = 0) ∧
      (sub.frameY = none → f.oy = 0) ∧
      (∀ q, sub.frameX = some (some q) → f.ox = -q) ∧
      (∀ q, sub.frameY = some (some q) → f.oy = -q) := by
  simp only [parseSparrow, parseSparrowIndexed] at h
  cases hb : buildTable [] subs with
  | error e => rw [hb] at h; exact absurd h (by simp [Except.map])
  | ok t₀ =>
    rw [hb] at h
    simp only [Except.map, Except.ok.injEq] at h
    subst h
    rw [List.map_map] at hc
    obtain ⟨q, hq, hpq⟩ := List.mem_map.mp hc
    obtain ⟨k0, fs0⟩ := q
    simp only [Function.comp_apply, Prod.mk.injEq] at hpq
    obtain ⟨hk, hfs⟩ := hpq
    subst hk
    rw [← hfs] at hf
    obtain ⟨g, hg, hgf⟩ := List.mem_map.mp hf
    have hg0 : g ∈ fs0 := (sortByIndex_perm fs0).mem_iff.mp hg
    rcases buildTable_mem subs [] t₀ k0 fs0 g hb hq hg0 with ⟨fs₀, hm₀, _⟩ | hfound
    · simp at hm₀
    · obtain ⟨sub, hsub, nm, idx, hn, hs, hgdef⟩ := hfound
      refine ⟨sub, hsub, nm, idx, hn, hs, ?_, ?_, ?_, ?_, ?_, ?_⟩
      · rw [← hgf, hgdef]; rfl
      · rw [← hgf, hgdef]; rfl
      · intro hx; rw [← hgf, hgdef, mkIndexedFrame]; simp [hx, plusAttr, orZero,
          IndexedFrame.dropIndex]
      · intro hy; rw [← hgf, hgdef, mkIndexedFrame]; simp [hy, plusAttr, orZero,
          IndexedFrame.dropIndex]
      · intro qv hx; rw [← hgf, hgdef, mkIndexedFrame]; simp [hx, plusAttr, orZero,
          IndexedFrame.dropIndex]
      · intro qv hy; rw [← hgf, hgdef, mkIndexedFrame]; simp [hy, plusAttr, orZero,
          IndexedFrame.dropIndex]

/-- C5 witness: the offset law evaluated on the parsed example table, on a
frame whose entry has frameX seven (stored as minus seven) and frameY
absent (stored as zero). -/
theorem parseSparrow_offset_negation_witness :
    parseSparrow [exIdle2, exIdle10, exIdle0] =
      Except.ok [("idle",
        [(mkIndexedFrame exIdle0 0).dropIndex, (mkIndexedFrame exIdle2 2).dropIndex,
         (mkIndexedFrame exIdle10 10).dropIndex])] ∧
    (∃ sub ∈ [exIdle2, exIdle10, exIdle0], ∃ nm idx, sub.name = some nm ∧
      splitName nm = some ("idle", idx) ∧
      (mkIndexedFrame exIdle0 0).dropIndex.ox = -(orZero (plusAttr sub.frameX)) ∧
      (mkIndexedFrame exIdle0 0).dropIndex.oy = -(orZero (plusAttr sub.frameY)) ∧
      (sub.frameX = none → (mkIndexedFrame exIdle0 0).dropIndex.ox = 0) ∧
      (sub.frameY = none → (mkIndexedFrame exIdle0 0).dropIndex.oy = 0) ∧
      (∀ q, sub.frameX = some (some q) → (mkIndexedFrame exIdle0 0).dropIndex.ox = -q) ∧
      (∀ q, sub.frameY = some (some q) → (mkIndexedFrame exIdle0 0).dropIndex.oy = -q)) :=
  ⟨rfl,
   parseSparrow_offset_negation [exIdle2, exIdle10, exIdle0] _ rfl "idle" _
     (mkIndexedFrame exIdle0 0).dropIndex (List.mem_singleton.mpr rfl)
     (List.mem_cons_self ..)⟩

/-! ### C9 -/

/-- Entities with layers two, zero and one, inserted in that order, plus a
pair sharing one layer. -/
def exLayer2 : GameObj := ⟨"back", some 2, none⟩

def exLayer0 : GameObj := ⟨"floor", some 0, none⟩

def exLayer1 : GameObj := ⟨"lamp", some 1, none⟩

def exSameA : GameObj := ⟨"first", some 5, none⟩

def exSameB : GameObj := ⟨"second", some 5, none⟩

theorem filter_orderedInsert_layer (k : ℤ) (o : GameObj) :
    ∀ l : List GameObj,
      (List.orderedInsert (fun a b => effLayer a ≤ effLayer b) o l).filter
          (fun x => effLayer x == k) =
        if effLayer o = k then o :: l.filter (fun x => effLayer x == k)
        else l.filter (fun x => effLayer x == k) := by
  intro l
  induction l with
  | nil =>
    by_cases h : effLayer o = k <;>
      simp [List.orderedInsert, List.filter_cons, h]
  | cons b l ih =>
    by_cases h1 : effLayer o ≤ effLayer b
    · simp only [List.orderedInsert, if_pos h1]
      by_cases h2 : effLayer o = k <;> by_cases h3 : effLayer b = k <;>
        simp [List.filter_cons, h2, h3]
    · simp only [List.orderedInsert, if_neg h1]
      have hb : effLayer b < effLayer o := lt_of_not_le h1
      by_cases h2 : effLayer o = k
      · have h3 : ¬ (effLayer b = k) := by omega
        simp [List.filter_cons, h2, h3, ih]
      · by_cases h3 : effLayer b = k <;>
          simp [List.filter_cons, h2, h3, ih]

theorem filter_sortByLayer (k : ℤ) :
    ∀ l : List GameObj,
      (sortByLayer l).filter (fun x => effLayer x == k) =
        l.filter (fun x => effLayer x == k) := by
  intro l
  induction l with
  | nil => rfl
  | cons o l ih =>
    simp only [sortByLayer, List.insertionSort] at ih ⊢
    rw [filter_orderedInsert_layer]
    by_cases h : effLayer o = k <;>
      simp [List.filter_cons, h, ih]

/-- C9: the per-tick processing order is the entity list sorted by
ascending effective layer; it is a permutation of the insertion order, and
it is stable: for every layer value the entities of that layer appear in
exactly their insertion order.  On entities inserted with layers two, zero
and one the draw order is layer zero, then one, then two, and two entities
sharing a layer keep their insertion order. -/
theorem loop_layer_order (l : List GameObj) (k : ℤ) :
    List.Sorted (fun a b => effLayer a ≤ effLayer b) (sortByLayer l) ∧
    List.Perm (sortByLayer l) l ∧
    (sortByLayer l).filter (fun x => effLayer x == k) =
      l.filter (fun x => effLayer x == k) ∧
    sortByLayer [exLayer2, exLayer0, exLayer1] = [exLayer0, exLayer1, exLayer2] ∧
    sortByLayer [exSameA, exSameB] = [exSameA, exSameB] := by
  refine ⟨?_, List.perm_insertionSort _ l, filter_sortByLayer k l, by decide, by decide⟩
  haveI : IsTotal GameObj (fun a b => effLayer a ≤ effLayer b) :=
    ⟨fun a b => Int.le_total _ _⟩
  haveI : IsTrans GameObj (fun a b => effLayer a ≤ effLayer b) :=
    ⟨fun _ _ _ h h' => le_trans h h'⟩
  exact List.sorted_insertionSort _ l

end Funkin
